import Mathlib

/-!
Verification of the per-guild audio Player engine and its command surface.

The repository slice contains the command handlers (`skip`, `next`,
`config`, `favorites`); the Player / Queue / VolumeController /
PlayerRegistry engine they drive is an external module of the same
project, so those components are modelled here from the specification's
data model (§3) and component contracts (§4), while the command handlers
themselves are embedded directly from the TypeScript sources.
-/

namespace Muse

/-- Modelled from the spec: `Track` — immutable descriptor of one playable
unit (source query, display title, nullable duration, requester identity,
chapter-split flag).  The `Track` class is not part of the visible source
slice. -/
structure Track where
  query : String
  title : String
  duration : Option Nat
  requester : String
  splitChapters : Bool
deriving DecidableEq

/-- Modelled from the spec: the Player state machine's states (§4.2). -/
inductive PlayerStatus where
  | idle
  | connecting
  | playing
  | paused
  | disconnected
deriving DecidableEq

/-- Modelled from the spec: `Queue` — ordered sequence of Tracks plus a
cursor marking the currently playing entry (or none when empty/idle). -/
structure Queue where
  tracks : List Track
  cursor : Option Nat
deriving DecidableEq

/-- Modelled from the spec: the failure taxonomy of §7 restricted to the
kinds the claims mention. -/
inductive PlayerError where
  | invalidArgument
  | noNextTrack
  | playlistTooLarge
deriving DecidableEq

/-- Modelled from the spec: `VolumeController` — base volume, a boolean
ducking-active flag, and a ducked target volume (§3). -/
structure VolumeController where
  base : Int
  duckingActive : Bool
  duckTarget : Int
deriving DecidableEq

/-- Modelled from the spec: effective output volume = ducked target while
ducking-active, else base volume (§3, §4.4). -/
def VolumeController.effectiveVolume (v : VolumeController) : Int :=
  if v.duckingActive then v.duckTarget else v.base

/-- Modelled from the spec: `setVolume(percent: 0–100)` updates the base
volume; a percent outside 0–100 is an `InvalidArgument` failure with no
state change (§4.2, §7).  The state and the reported failure are returned
as a pair. -/
def VolumeController.setVolume (percent : Int) (v : VolumeController) :
    VolumeController × Option PlayerError :=
  if percent < 0 ∨ 100 < percent then (v, some .invalidArgument)
  else (⟨percent, v.duckingActive, v.duckTarget⟩, none)

/-- Modelled from the spec: `Player` — owns exactly one Queue and one
VolumeController (§3).  The connection handle and timers are external and
modelled separately. -/
structure Player where
  status : PlayerStatus
  queue : Queue
  volume : VolumeController
deriving DecidableEq

/-- Modelled from the spec: `getCurrent() -> Track | none` — pure read of
the track under the queue's cursor. -/
def Player.getCurrent (p : Player) : Option Track :=
  match p.queue.cursor with
  | none => none
  | some c => p.queue.tracks[c]?

/-- Modelled from the spec: `forward(n)` — n < 1 is an `InvalidArgument`
failure with no state change; otherwise discards the current track and the
next n − 1 queued tracks, then begins playing the following track; if no
track remains, transitions to `Idle` and signals `NoNextTrack` while the
caller still observes the now-idle state (§4.2).  The resulting state and
the reported failure are returned as a pair. -/
def Player.forward (n : Int) (p : Player) : Player × Option PlayerError :=
  if n < 1 then (p, some .invalidArgument)
  else
    match p.queue.cursor with
    | none => ({ p with status := .idle }, some .noNextTrack)
    | some c =>
      let rest := p.queue.tracks.take c ++ p.queue.tracks.drop (c + n.toNat)
      if c < rest.length then
        (⟨.playing, ⟨rest, some c⟩, p.volume⟩, none)
      else
        (⟨.idle, ⟨rest, none⟩, p.volume⟩, some .noNextTrack)

/-- Modelled from the spec: insertion modes of `enqueue` (§4.2). -/
inductive EnqueueMode where
  | append
  | front
deriving DecidableEq

/-- Modelled from the spec: `enqueue(tracks, mode, shuffle)` — rejects with
`PlaylistTooLarge` when the batch size exceeds the guild's configured limit,
leaving the Player untouched; otherwise inserts the batch (append at the
end, or front: right after the current entry) and, when the Player was
`Idle`, begins playback of the first eligible track.  The optional uniform
shuffle of the batch is applied by the caller before this point, so the
batch arrives already in its final order. -/
def Player.enqueue (batch : List Track) (mode : EnqueueMode)
    (playlistLimit : Nat) (p : Player) : Player × Option PlayerError :=
  if playlistLimit < batch.length then (p, some .playlistTooLarge)
  else
    let tracks :=
      match mode with
      | .append => p.queue.tracks ++ batch
      | .front =>
        match p.queue.cursor with
        | none => batch ++ p.queue.tracks
        | some c => p.queue.tracks.take (c + 1) ++ batch ++ p.queue.tracks.drop (c + 1)
    let cursor :=
      match p.queue.cursor with
      | some c => some c
      | none => if tracks.isEmpty then none else some 0
    let status :=
      if p.status = .idle ∧ cursor.isSome then PlayerStatus.playing else p.status
    (⟨status, ⟨tracks, cursor⟩, p.volume⟩, none)

/-- Failures the `skip` command handler can raise. -/
inductive SkipCommandError where
  | invalidNumber
  | noSongToSkipTo
deriving DecidableEq

/-- Embedding of `execute` in the `skip` command: reads the optional
`number` option (default 1), throws on a value below 1 before touching the
Player, otherwise forwards the Player and replies with a skip message, and
turns any failure from `forward` into the "no song to skip to" error. -/
def skipExecute (numberArg : Option Int) (p : Player) :
    Except SkipCommandError (Player × String) :=
  let numToSkip := numberArg.getD 1
  if numToSkip < 1 then .error .invalidNumber
  else
    let skipMessage :=
      if numToSkip = 1 then "Skipping " ++ toString numToSkip ++ " song"
      else "Skipping " ++ toString numToSkip ++ " songs"
    match p.forward numToSkip with
    | (next, none) => .ok (next, skipMessage)
    | (_, some _) => .error .noSongToSkipTo

/-- Association lookup used by the registry map (guild identifier to player
instance identifier). -/
def findPlayer (g : String) : List (String × Nat) → Option Nat
  | [] => none
  | kv :: rest => if kv.1 = g then some kv.2 else findPlayer g rest

/-- Modelled from the spec: `PlayerRegistry` — mapping from guild identifier
to Player (§3, §4.1).  Players are identified by the instance counter
`nextId`; `creations` logs each run of the Player constructor. -/
structure Registry where
  players : List (String × Nat)
  nextId : Nat
  creations : List String
deriving DecidableEq

/-- Modelled from the spec: `get(guildId)` returns the existing Player for
the guild or atomically constructs and registers a new one (§4.1).  Since
`get` calls serialize per guild key (§4.1, §5), a batch of concurrent
callers is modelled as a sequence of these atomic steps. -/
def Registry.get (g : String) (r : Registry) : Nat × Registry :=
  match findPlayer g r.players with
  | some pid => (pid, r)
  | none => (r.nextId, ⟨(g, r.nextId) :: r.players, r.nextId + 1, g :: r.creations⟩)

/-- Modelled from the spec: `remove(guildId)` detaches a Player from the
registry; idempotent (§4.1). -/
def Registry.remove (g : String) (r : Registry) : Registry :=
  ⟨r.players.filter (fun kv => kv.1 ≠ g), r.nextId, r.creations⟩

/-- Occurrences of a guild identifier in a construction log. -/
def countStr (g : String) : List String → Nat
  | [] => 0
  | x :: xs => (if x = g then 1 else 0) + countStr g xs

/-- One atomic `get` per caller, applied in the serialization order chosen
by the registry; returns every caller's observed Player instance. -/
def runGets : List String → Registry → List Nat × Registry
  | [], r => ([], r)
  | g :: gs, r =>
    let first := r.get g
    let rest := runGets gs first.2
    (first.1 :: rest.1, rest.2)

/-- Modelled from the spec: the events reaching one Player's leave-timer
logic through its per-Player serialization point (§4.2, §5) — a
queue-emptied notification, an enqueue that restarts playback, and one
tick of discrete time. -/
inductive LeaveEvent where
  | queueEmptied
  | enqueueTracks
  | tick
deriving DecidableEq

/-- Modelled from the spec: the timer-relevant slice of one Player — a
discrete clock, the deadlines of the armed leave timers (`armed`), and the
Player state. -/
structure LeaveState where
  clock : Nat
  armed : List Nat
  status : PlayerStatus
deriving DecidableEq

/-- Modelled from the spec: `onQueueEmptied()` arms the leave timer with
the guild's configured delay, a delay of 0 meaning "never auto-leave";
arming a new leave timer implicitly cancels any previously armed one; an
enqueue cancels the pending leave and resumes playback; when an armed
deadline is reached while the Player is idle, the Player transitions to
`Disconnected` (§4.2, §5). -/
def stepLeave (delay : Nat) (s : LeaveState) : LeaveEvent → LeaveState
  | .queueEmptied =>
    if delay = 0 then ⟨s.clock, [], .idle⟩
    else ⟨s.clock, [s.clock + delay], .idle⟩
  | .enqueueTracks => ⟨s.clock, [], .playing⟩
  | .tick =>
    if s.status = .idle ∧ ∃ t ∈ s.armed, t ≤ s.clock + 1 then
      ⟨s.clock + 1, [], .disconnected⟩
    else ⟨s.clock + 1, s.armed, s.status⟩

/-- Folding a sequence of serialized events over the timer state. -/
def runLeave (delay : Nat) (s : LeaveState) (evs : List LeaveEvent) : LeaveState :=
  evs.foldl (stepLeave delay) s

/-- Structural model of JS `String.prototype.toLowerCase` (ASCII case
fold), recursing over the character list so that it evaluates by
reduction. -/
def strToLower (s : String) : String :=
  ⟨s.data.map Char.toLower⟩

/-- `listStarts pre s` — `pre` is an initial run of `s`. -/
def listStarts : List Char → List Char → Bool
  | [], _ => true
  | _ :: _, [] => false
  | p :: ps, c :: cs => p == c && listStarts ps cs

/-- Structural model of JS `String.prototype.startsWith`. -/
def strStarts (s pre : String) : Bool :=
  listStarts pre.data s.data

/-- Structural model of JS `String.prototype.trim`: strip leading and
trailing whitespace. -/
def strTrim (s : String) : String :=
  ⟨((s.data.dropWhile Char.isWhitespace).reverse.dropWhile
      Char.isWhitespace).reverse⟩

/-- A stored favorite, as persisted per guild: numeric key, display name,
the query it expands to, its author, and the owning guild. -/
structure Favorite where
  id : Nat
  name : String
  query : String
  authorId : String
  guildId : String
deriving DecidableEq

/-- One autocomplete choice sent back to the chat client. -/
structure Choice where
  name : String
  value : String
deriving DecidableEq

/-- Embedding of `handleAutocompleteInteraction` in the favorites command:
trims the typed query, loads the guild's favorites, keeps those whose name
starts with the query (compared lowercased) unless the query is empty, for
the `remove` subcommand keeps only favorites the requester may remove
(all of them for the guild owner, otherwise only the requester's own), and
caps the response at 25 choices. -/
def handleAutocompleteInteraction (subcommand rawName guildId memberId
    ownerId : String) (store : List Favorite) : List Choice :=
  let query := strTrim rawName
  let favorites := store.filter (fun f => f.guildId == guildId)
  let results :=
    if query = "" then favorites
    else favorites.filter
      (fun f => strStarts (strToLower f.name) (strToLower query))
  let results2 :=
    if subcommand = "remove" then
      if memberId = ownerId then results
      else results.filter (fun r => r.authorId == memberId)
    else results
  let trimmed := if results2.length > 25 then results2.take 25 else results2
  trimmed.map (fun r => ⟨r.name, r.name⟩)

/-- Failures the favorites `remove` subcommand can raise. -/
inductive RemoveError where
  | notFound
  | notAllowed
deriving DecidableEq

/-- Embedding of `remove` in the favorites command: trims the given name,
looks up the first favorite with that name in the guild, throws when none
exists, throws when the requester is neither the favorite's author nor the
guild owner, and otherwise deletes the found favorite from the store (the
persisted record with its key). -/
def removeFavorite (rawName guildId memberId ownerId : String)
    (store : List Favorite) : Except RemoveError (List Favorite) :=
  let name := strTrim rawName
  match store.find? (fun f => f.name == name && f.guildId == guildId) with
  | none => .error .notFound
  | some favorite =>
    if favorite.authorId ≠ memberId ∧ memberId ≠ ownerId then
      .error .notAllowed
    else
      .ok (store.filter (fun f => f.id != favorite.id))


def tA : Track := ⟨"qa", "A", none, "u1", false⟩

def tB : Track := ⟨"qb", "B", none, "u1", false⟩

def vol0 : VolumeController := ⟨50, false, 30⟩

def pAB : Player := ⟨.playing, ⟨[tA, tB], some 0⟩, vol0⟩

def pDucked : Player := ⟨.playing, ⟨[tA], some 0⟩, ⟨100, true, 30⟩⟩

def pDuckedIdle : Player := ⟨.idle, ⟨[], none⟩, ⟨100, true, 30⟩⟩

def sIdle : LeaveState := ⟨0, [], .idle⟩

def regEmpty : Registry := ⟨[], 0, []⟩

def favLofi : Favorite := ⟨1, "lofi", "q1", "alice", "g1"⟩

def favLoud : Favorite := ⟨2, "Loud", "q2", "bob", "g1"⟩

def favRock : Favorite := ⟨3, "rock", "q3", "alice", "g2"⟩

def favStore : List Favorite := [favLofi, favLoud, favRock]

lemma findPlayer_eq_none_not_mem (g : String) (l : List (String × Nat))
    (h : findPlayer g l = none) : g ∉ l.map Prod.fst := by
  induction l with
  | nil => simp
  | cons kv rest ih =>
    by_cases hk : kv.1 = g
    · simp [findPlayer, hk] at h
    · simp only [findPlayer, if_neg hk] at h
      simp [ih h, hk]
      exact fun hg => hk hg.symm

lemma runGets_replicate_found (G : String) (pid : Nat) (k : Nat) (r : Registry)
    (h : findPlayer G r.players = some pid) :
    runGets (List.replicate k G) r = (List.replicate k pid, r) := by
  induction k with
  | zero => simp [runGets]
  | succ k ih => simp [List.replicate_succ, runGets, Registry.get, h, ih]

lemma runLeave_cons (delay : Nat) (s : LeaveState) (e : LeaveEvent)
    (evs : List LeaveEvent) :
    runLeave delay s (e :: evs) = runLeave delay (stepLeave delay s e) evs := rfl

lemma runLeave_append (delay : Nat) (s : LeaveState)
    (l1 l2 : List LeaveEvent) :
    runLeave delay s (l1 ++ l2) = runLeave delay (runLeave delay s l1) l2 := by
  simp [runLeave, List.foldl_append]

lemma runLeave_disarmed (evs : List LeaveEvent) : ∀ s : LeaveState,
    s.armed = [] →
    (runLeave 0 s evs).armed = [] ∧
    ((runLeave 0 s evs).status = .disconnected → s.status = .disconnected) := by
  induction evs with
  | nil =>
    intro s h
    exact ⟨h, fun hd => hd⟩
  | cons e evs ih =>
    intro s h
    rw [runLeave_cons]
    cases e with
    | queueEmptied =>
      have hstep : stepLeave 0 s .queueEmptied = ⟨s.clock, [], .idle⟩ := by
        simp [stepLeave]
      rw [hstep]
      rcases ih ⟨s.clock, [], .idle⟩ rfl with ⟨h1, h2⟩
      exact ⟨h1, fun hd => by have := h2 hd; simp at this⟩
    | enqueueTracks =>
      have hstep : stepLeave 0 s .enqueueTracks = ⟨s.clock, [], .playing⟩ := by
        simp [stepLeave]
      rw [hstep]
      rcases ih ⟨s.clock, [], .playing⟩ rfl with ⟨h1, h2⟩
      exact ⟨h1, fun hd => by have := h2 hd; simp at this⟩
    | tick =>
      have hstep : stepLeave 0 s .tick = ⟨s.clock + 1, [], s.status⟩ := by
        simp [stepLeave, h]
      rw [hstep]
      exact ih ⟨s.clock + 1, [], s.status⟩ rfl

lemma runLeave_ticks_idle (delay c0 : Nat) (k : Nat) : ∀ j : Nat,
    j + k < delay →
    runLeave delay ⟨c0 + j, [c0 + delay], .idle⟩ (List.replicate k .tick) =
      ⟨c0 + j + k, [c0 + delay], .idle⟩ := by
  induction k with
  | zero =>
    intro j h
    simp [runLeave]
  | succ k ih =>
    intro j h
    rw [List.replicate_succ, runLeave_cons]
    have hcond : ¬ ∃ t ∈ [c0 + delay], t ≤ c0 + j + 1 := by
      simp
      omega
    have hstep : stepLeave delay ⟨c0 + j, [c0 + delay], .idle⟩ .tick =
        ⟨c0 + j + 1, [c0 + delay], .idle⟩ := by
      simp [stepLeave, hcond]
      omega
    rw [hstep]
    have h2 := ih (j + 1) (by omega)
    rw [show c0 + (j + 1) + k = c0 + j + (k + 1) by omega] at h2
    exact h2

lemma runLeave_le_one (delay : Nat) (evs : List LeaveEvent) :
    ∀ s : LeaveState, s.armed.length ≤ 1 →
    (runLeave delay s evs).armed.length ≤ 1 := by
  induction evs with
  | nil =>
    intro s h
    exact h
  | cons e evs ih =>
    intro s h
    rw [runLeave_cons]
    apply ih
    cases e with
    | queueEmptied =>
      by_cases hd : delay = 0 <;> simp [stepLeave, hd]
    | enqueueTracks =>
      simp [stepLeave]
    | tick =>
      by_cases hc : (s.status = .idle ∧ ∃ t ∈ s.armed, t ≤ s.clock + 1)
      · simp [stepLeave, hc]
      · simpa [stepLeave, hc] using h

lemma length_cap {α : Type} (l : List α) :
    (if l.length > 25 then l.take 25 else l).length ≤ 25 := by
  by_cases h : l.length > 25
  · simp [h]
  · simp [h]
    omega

lemma mem_cap {α : Type} {l : List α} {x : α}
    (h : x ∈ (if l.length > 25 then l.take 25 else l)) : x ∈ l := by
  by_cases hl : l.length > 25
  · rw [if_pos hl] at h
    exact List.take_subset _ _ h
  · rwa [if_neg hl] at h

/-- Claim C1: for every Player in state Playing with a non-empty queue,
after `forward(1)` succeeds the new current track (as returned by
`getCurrent`) equals the track that was second in line before the call; if
no track remained after discarding the current one, the Player transitions
to Idle instead. -/

theorem forward_one_spec (p : Player) (c : Nat)
    (hplay : p.status = .playing) (hcur : p.queue.cursor = some c)
    (hc : c < p.queue.tracks.length) :
    (∀ t, p.queue.tracks[c + 1]? = some t →
      (p.forward 1).1.getCurrent = some t ∧
      (p.forward 1).1.status = .playing ∧ (p.forward 1).2 = none) ∧
    (p.queue.tracks[c + 1]? = none →
      (p.forward 1).1.status = .idle ∧ (p.forward 1).2 = some .noNextTrack) := by
  have hnot : ¬ (1 : Int) < 1 := by omega
  constructor
  · intro t ht
    have hc1 : c + 1 < p.queue.tracks.length := (List.getElem?_eq_some.mp ht).1
    have hcond : c < c ⊓ p.queue.tracks.length + (p.queue.tracks.length - (c + 1)) := by
      omega
    have hget : (p.queue.tracks.take c ++ p.queue.tracks.drop (c + 1))[c]? = some t := by
      rw [List.getElem?_append_right (by simp [List.length_take])]
      rw [List.getElem?_drop]
      have harith : c + 1 + (c - (p.queue.tracks.take c).length) = c + 1 := by
        simp [List.length_take]
        omega
      rw [harith, ht]
    simp [Player.forward, hnot, hcur, hcond, Player.getCurrent, hget]
  · intro ht
    have hc1 : p.queue.tracks.length ≤ c + 1 := List.getElem?_eq_none_iff.mp ht
    have hcond : ¬ c < c ⊓ p.queue.tracks.length + (p.queue.tracks.length - (c + 1)) := by
      omega
    simp [Player.forward, hnot, hcur, hcond]

theorem forward_one_spec_witness :
    (pAB.forward 1).1.getCurrent = some tB ∧
    (pAB.forward 1).1.status = .playing ∧ (pAB.forward 1).2 = none :=
  (forward_one_spec pAB 0 rfl rfl (by decide)).1 tB rfl

/-- Claim C2: for every Player and every n ≥ 1, if `forward(n)` finds no
track to land on after discarding the current track and the next n − 1
queued tracks, the Player transitions to Idle and the caller receives the
failure NoNextTrack and no other failure kind. -/
theorem forward_exhaust_spec (p : Player) (n : Int) (c : Nat)
    (hn : 1 ≤ n) (hcur : p.queue.cursor = some c)
    (hrem : p.queue.tracks.drop (c + n.toNat) = []) :
    (p.forward n).1.status = .idle ∧ (p.forward n).1.queue.cursor = none ∧
    (p.forward n).2 = some .noNextTrack := by
  have hnot : ¬ n < 1 := not_lt.mpr hn
  have hle : p.queue.tracks.length ≤ c + n.toNat := by
    have hlen := congrArg List.length hrem
    simp only [List.length_drop, List.length_nil] at hlen
    omega
  have hcond : ¬ c < c ⊓ p.queue.tracks.length + (p.queue.tracks.length - (c + n.toNat)) := by
    omega
  simp [Player.forward, hnot, hcur, hcond]

theorem forward_exhaust_spec_witness :
    (pAB.forward 3).1.status = .idle ∧ (pAB.forward 3).1.queue.cursor = none ∧
    (pAB.forward 3).2 = some .noNextTrack :=
  forward_exhaust_spec pAB 3 0 (by decide) rfl rfl

/-- Claim C3: for every Player and every integer n < 1, `forward(n)` fails
synchronously with InvalidArgument and causes no state change — the queue,
cursor and Player state are exactly as before the call; the `skip` command
handler likewise throws on n < 1 before touching the Player. -/

theorem forward_invalid_spec (p : Player) (n : Int) (hn : n < 1) :
    p.forward n = (p, some .invalidArgument) ∧
    skipExecute (some n) p = .error .invalidNumber := by
  constructor
  · simp [Player.forward, hn]
  · simp [skipExecute, hn]

theorem forward_invalid_spec_witness :
    pAB.forward 0 = (pAB, some .invalidArgument) ∧
    skipExecute (some 0) pAB = .error .invalidNumber :=
  forward_invalid_spec pAB 0 (by decide)

/-- Claim C4: for every Player and every batch of tracks whose size exceeds
the guild's configured playlistLimit, `enqueue` fails with PlaylistTooLarge
and the queue is left unmodified — no track from the batch is added and
the cursor does not move. -/

theorem enqueue_too_large_spec (p : Player) (batch : List Track)
    (mode : EnqueueMode) (limit : Nat) (h : limit < batch.length) :
    p.enqueue batch mode limit = (p, some .playlistTooLarge) := by
  simp [Player.enqueue, h]

theorem enqueue_too_large_spec_witness :
    pAB.enqueue [tA, tB] .append 1 = (pAB, some .playlistTooLarge) :=
  enqueue_too_large_spec pAB [tA, tB] .append 1 (by decide)

/-- Claim C5: `setVolume(percent)` fails with InvalidArgument for every
percent outside 0–100 with no state change, and succeeds for every percent
in 0–100, updating the base volume and nothing else. -/
theorem set_volume_spec (v : VolumeController) (percent : Int) :
    ((percent < 0 ∨ 100 < percent) →
      VolumeController.setVolume percent v = (v, some .invalidArgument)) ∧
    (0 ≤ percent → percent ≤ 100 →
      VolumeController.setVolume percent v =
        (⟨percent, v.duckingActive, v.duckTarget⟩, none)) := by
  constructor
  · intro h
    simp [VolumeController.setVolume, if_pos h]
  · intro h1 h2
    have hno : ¬ (percent < 0 ∨ 100 < percent) := by omega
    simp [VolumeController.setVolume, hno]

theorem set_volume_spec_witness :
    VolumeController.setVolume 150 vol0 = (vol0, some .invalidArgument) ∧
    VolumeController.setVolume (-1) vol0 = (vol0, some .invalidArgument) ∧
    VolumeController.setVolume 0 vol0 = (⟨0, false, 30⟩, none) ∧
    VolumeController.setVolume 100 vol0 = (⟨100, false, 30⟩, none) :=
  ⟨(set_volume_spec vol0 150).1 (Or.inr (by decide)),
   (set_volume_spec vol0 (-1)).1 (Or.inl (by decide)),
   (set_volume_spec vol0 0).2 (by decide) (by decide),
   (set_volume_spec vol0 100).2 (by decide) (by decide)⟩

/-- Claim C6: for every VolumeController state, `effectiveVolume()` is a
deterministic, side-effect-free function of (base, ducking-active,
duck-target): it equals the ducked target volume while ducking-active is
true and the base volume otherwise. -/
theorem effective_volume_pure (p q : Player)
    (hb : p.volume.base = q.volume.base)
    (hd : p.volume.duckingActive = q.volume.duckingActive)
    (ht : p.volume.duckTarget = q.volume.duckTarget) :
    p.volume.effectiveVolume = q.volume.effectiveVolume ∧
    (p.volume.duckingActive = true →
      p.volume.effectiveVolume = p.volume.duckTarget) ∧
    (p.volume.duckingActive = false →
      p.volume.effectiveVolume = p.volume.base) := by
  refine ⟨?_, fun h => ?_, fun h => ?_⟩
  · simp [VolumeController.effectiveVolume, hb, hd, ht]
  · simp [VolumeController.effectiveVolume, h]
  · simp [VolumeController.effectiveVolume, h]

theorem effective_volume_pure_witness :
    pDucked.volume.effectiveVolume = pDuckedIdle.volume.effectiveVolume ∧
    (pDucked.volume.duckingActive = true →
      pDucked.volume.effectiveVolume = pDucked.volume.duckTarget) ∧
    (pDucked.volume.duckingActive = false →
      pDucked.volume.effectiveVolume = pDucked.volume.base) :=
  effective_volume_pure pDucked pDuckedIdle rfl rfl rfl

/-- Claim C7: for every Player whose guild has leaveDelaySeconds = 0, a
queue-emptied event never arms the leave timer and the Player never
transitions to Disconnected by timer; for leaveDelaySeconds > 0, an
enqueue arriving before the deadline cancels the pending leave; and at
most one leave timer is pending per Player at any time. -/
theorem leave_timer_spec (delay : Nat) (s : LeaveState)
    (evs : List LeaveEvent) (k : Nat) :
    (delay = 0 → s.armed = [] →
      (runLeave delay s evs).armed = [] ∧
      ((runLeave delay s evs).status = .disconnected →
        s.status = .disconnected)) ∧
    (0 < delay → k < delay →
      runLeave delay s
          (.queueEmptied :: (List.replicate k .tick ++ [.enqueueTracks])) =
        ⟨s.clock + k, [], .playing⟩) ∧
    (s.armed.length ≤ 1 → (runLeave delay s evs).armed.length ≤ 1) := by
  refine ⟨fun h0 ha => h0 ▸ runLeave_disarmed evs s ha, fun hpos hk => ?_,
    fun h1 => runLeave_le_one delay evs s h1⟩
  rw [runLeave_cons]
  have hstep : stepLeave delay s .queueEmptied =
      ⟨s.clock, [s.clock + delay], .idle⟩ := by
    simp [stepLeave, Nat.pos_iff_ne_zero.mp hpos]
  rw [hstep, runLeave_append]
  have hticks := runLeave_ticks_idle delay s.clock k 0 (by omega)
  rw [show s.clock + 0 = s.clock from rfl] at hticks
  rw [hticks]
  simp [runLeave, stepLeave]

theorem leave_timer_spec_witness :
    ((runLeave 0 sIdle [.queueEmptied, .tick, .tick]).armed = [] ∧
      ((runLeave 0 sIdle [.queueEmptied, .tick, .tick]).status = .disconnected →
        sIdle.status = .disconnected)) ∧
    runLeave 5 sIdle
        (.queueEmptied :: (List.replicate 2 .tick ++ [.enqueueTracks])) =
      ⟨sIdle.clock + 2, [], .playing⟩ ∧
    (runLeave 5 sIdle [.queueEmptied, .tick]).armed.length ≤ 1 :=
  ⟨(leave_timer_spec 0 sIdle [.queueEmptied, .tick, .tick] 0).1 rfl rfl,
   (leave_timer_spec 5 sIdle [.queueEmptied, .tick] 2).2.1 (by decide) (by decide),
   (leave_timer_spec 5 sIdle [.queueEmptied, .tick] 2).2.2 (by decide)⟩

/-- Claim C8: for every guild identifier G, `registry.get(G)` called by N
concurrent callers — serialized per guild key as the registry contract
requires — returns the same single Player instance to all of them with the
constructor run exactly once, and there is never more than one live Player
per guild identifier. -/
theorem registry_get_once_spec (r : Registry) (G : String) (n : Nat)
    (hn : 1 ≤ n) (hfresh : findPlayer G r.players = none) :
    ∃ pid,
      (runGets (List.replicate n G) r).1 = List.replicate n pid ∧
      countStr G (runGets (List.replicate n G) r).2.creations =
        countStr G r.creations + 1 ∧
      ((r.players.map Prod.fst).Nodup →
        ((runGets (List.replicate n G) r).2.players.map Prod.fst).Nodup) := by
  obtain ⟨m, rfl⟩ : ∃ m, n = m + 1 := ⟨n - 1, by omega⟩
  refine ⟨r.nextId, ?_⟩
  have hstep : r.get G =
      (r.nextId, ⟨(G, r.nextId) :: r.players, r.nextId + 1, G :: r.creations⟩) := by
    simp [Registry.get, hfresh]
  have hfound :
      findPlayer G ((G, r.nextId) :: r.players) = some r.nextId := by
    simp [findPlayer]
  have hrest := runGets_replicate_found G r.nextId m
    ⟨(G, r.nextId) :: r.players, r.nextId + 1, G :: r.creations⟩ hfound
  have hrun : runGets (List.replicate (m + 1) G) r =
      (r.nextId :: List.replicate m r.nextId,
        ⟨(G, r.nextId) :: r.players, r.nextId + 1, G :: r.creations⟩) := by
    simp [List.replicate_succ, runGets, hstep, hrest]
  refine ⟨by rw [hrun, List.replicate_succ], ?_, ?_⟩
  · simp [hrun, countStr]
    omega
  · intro hnd
    simp only [hrun, List.map_cons]
    exact List.nodup_cons.mpr ⟨findPlayer_eq_none_not_mem G r.players hfresh, hnd⟩

theorem registry_get_once_spec_witness :
    ∃ pid,
      (runGets (List.replicate 3 "g1") regEmpty).1 = List.replicate 3 pid ∧
      countStr "g1" (runGets (List.replicate 3 "g1") regEmpty).2.creations =
        countStr "g1" regEmpty.creations + 1 ∧
      ((regEmpty.players.map Prod.fst).Nodup →
        ((runGets (List.replicate 3 "g1") regEmpty).2.players.map
          Prod.fst).Nodup) :=
  registry_get_once_spec regEmpty "g1" 3 (by decide) rfl

/-- Claim C9: for every guild and every autocomplete request to the
favorites command, `handleAutocompleteInteraction` responds with at most
25 choices, and when the trimmed query string is non-empty every returned
choice's name starts with the query, compared case-insensitively. -/
theorem autocomplete_spec (subcommand rawName guildId memberId
    ownerId : String) (store : List Favorite) :
    (handleAutocompleteInteraction subcommand rawName guildId memberId
      ownerId store).length ≤ 25 ∧
    (strTrim rawName ≠ "" →
      ∀ choice ∈ handleAutocompleteInteraction subcommand rawName guildId
        memberId ownerId store,
        strStarts (strToLower choice.name) (strToLower (strTrim rawName)) =
          true) := by
  constructor
  · simp only [handleAutocompleteInteraction, List.length_map]
    exact length_cap _
  · intro hq choice hc
    simp only [handleAutocompleteInteraction, if_neg hq] at hc
    obtain ⟨r, hrmem, hfr⟩ := List.mem_map.mp hc
    have hrF : r ∈ (store.filter (fun f => f.guildId == guildId)).filter
        (fun f => strStarts (strToLower f.name)
          (strToLower (strTrim rawName))) := by
      by_cases hsub : subcommand = "remove"
      · by_cases hown : memberId = ownerId
        · have hm := mem_cap hrmem
          rwa [if_pos hsub, if_pos hown] at hm
        · have hm := mem_cap hrmem
          rw [if_pos hsub, if_neg hown] at hm
          exact (List.mem_filter.mp hm).1
      · have hm := mem_cap hrmem
        rwa [if_neg hsub] at hm
    have hpred := (List.mem_filter.mp hrF).2
    have hname : choice.name = r.name := by
      rw [← hfr]
    rw [hname]
    exact hpred

theorem autocomplete_spec_witness :
    (handleAutocompleteInteraction "use" "lo" "g1" "alice" "owner"
      favStore).length ≤ 25 ∧
    strStarts (strToLower "lofi") (strToLower (strTrim "lo")) = true :=
  ⟨(autocomplete_spec "use" "lo" "g1" "alice" "owner" favStore).1,
   (autocomplete_spec "use" "lo" "g1" "alice" "owner" favStore).2 (by decide)
     ⟨"lofi", "lofi"⟩ (by decide)⟩

/-- Claim C10: the favorites `remove` subcommand deletes a stored favorite
only when the requesting user is the favorite's author or the guild's
owner; for any other requester it throws and the stored favorites are
unchanged, and removing a name that does not exist in the guild also
throws without modifying the store. -/
theorem remove_favorite_spec (store : List Favorite)
    (rawName guildId memberId ownerId : String) :
    (∀ store' fav,
      store.find? (fun f => f.name == strTrim rawName && f.guildId == guildId) =
        some fav →
      removeFavorite rawName guildId memberId ownerId store = .ok store' →
      fav ∈ store ∧
      (fav.authorId = memberId ∨ memberId = ownerId) ∧
      fav ∉ store' ∧
      ∀ g ∈ store, g.id ≠ fav.id → g ∈ store') ∧
    (∀ fav,
      store.find? (fun f => f.name == strTrim rawName && f.guildId == guildId) =
        some fav →
      fav.authorId ≠ memberId → memberId ≠ ownerId →
      removeFavorite rawName guildId memberId ownerId store =
        .error .notAllowed) ∧
    (store.find? (fun f => f.name == strTrim rawName && f.guildId == guildId) =
        none →
      removeFavorite rawName guildId memberId ownerId store =
        .error .notFound) := by
  refine ⟨?_, ?_, ?_⟩
  · intro store' fav hfind hok
    have hmem : fav ∈ store := List.mem_of_find?_eq_some hfind
    simp only [removeFavorite, hfind] at hok
    by_cases hauth : fav.authorId ≠ memberId ∧ memberId ≠ ownerId
    · rw [if_pos hauth] at hok
      exact absurd hok (by simp)
    · rw [if_neg hauth] at hok
      have hstore' : store' = store.filter (fun f => f.id != fav.id) := by
        injection hok with h
        exact h.symm
      push_neg at hauth
      refine ⟨hmem, ?_, ?_, ?_⟩
      · by_cases h1 : fav.authorId = memberId
        · exact Or.inl h1
        · exact Or.inr (hauth h1)
      · rw [hstore']
        intro hmem'
        have hf := (List.mem_filter.mp hmem').2
        simp at hf
      · intro g hg hgid
        rw [hstore']
        exact List.mem_filter.mpr ⟨hg, by simpa using hgid⟩
  · intro fav hfind h1 h2
    simp only [removeFavorite, hfind]
    rw [if_pos ⟨h1, h2⟩]
  · intro hfind
    simp only [removeFavorite, hfind]

theorem remove_favorite_spec_witness :
    (favLofi ∈ favStore ∧
      (favLofi.authorId = "alice" ∨ "alice" = "owner") ∧
      favLofi ∉ [favLoud, favRock] ∧
      favLoud ∈ [favLoud, favRock]) ∧
    removeFavorite "lofi" "g1" "bob" "owner" [favLofi] = .error .notAllowed ∧
    removeFavorite "zzz" "g1" "alice" "owner" favStore = .error .notFound :=
  ⟨(fun h => ⟨h.1, h.2.1, h.2.2.1, h.2.2.2 favLoud (by decide) (by decide)⟩)
     ((remove_favorite_spec favStore "lofi" "g1" "alice" "owner").1
       [favLoud, favRock] favLofi rfl rfl),
   (remove_favorite_spec [favLofi] "lofi" "g1" "bob" "owner").2.1 favLofi
     rfl (by decide) (by decide),
   (remove_favorite_spec favStore "zzz" "g1" "alice" "owner").2.2 rfl⟩

end Muse
